import Mathlib

/-!
Shallow embedding of the content-synchronization engine of the
potato_launcher repository, together with proofs of the claims about it.

Paths are modelled as lists of components (`List String`), matching the
component-wise semantics of Rust `Path::starts_with` / `strip_prefix` /
`join`.  The on-disk state is an association list from absolute paths to
file contents.  The content digest is an arbitrary function
`hashFn : String → String` supplied as a parameter of the model.
-/

set_option autoImplicit false

namespace PotatoLauncher

/-- A filesystem path, as its list of components. -/
abbrev Path := List String

/-- The state of the disk: an association list mapping each existing
file's absolute path to its content. -/
abbrev FS := List (Path × String)

/-- Look up the content of a file on disk. -/
def fsGet (fs : FS) (p : Path) : Option String :=
  (fs.find? (fun kv => decide (kv.1 = p))).map (·.2)

/-- Remove a file from the disk (models `fs::remove_file`). -/
def fsRemove (fs : FS) (p : Path) : FS :=
  fs.filter (fun kv => decide (kv.1 ≠ p))

/-- Write (create or overwrite) a file on disk. -/
def fsWrite (fs : FS) (p : Path) (c : String) : FS :=
  fsRemove fs p ++ [(p, c)]

/-- Modelled from the spec: `get_files_in_dir` (the repository's
`modpack/files.rs` is not part of the provided sources).  Per §4.2 it
returns "the set of all paths currently present under the managed
directories": every file on disk whose path lies under `dir`. -/
def get_files_in_dir (dir : Path) (fs : FS) : List Path :=
  (fs.filter (fun kv => dir.isPrefixOf kv.1)).map (·.1)

/-- The remote manifest of one content set, from `ModpackIndex` in
`modpack/index.rs`.  The Rust fields `include` and `include_no_overwrite`
are lists of directory names relative to the modpack directory; `objects`
maps manifest-relative file names (component lists here, `/`-separated
strings in Rust) to expected digests.  The Rust field `include` is a Lean
keyword, hence the name `includeDirs`. -/
structure ModpackIndex where
  modpack_name : String
  java_version : String
  minecraft_version : String
  modpack_version : String
  asset_index : String
  main_class : String
  libraries : List String
  java_args : List String
  game_args : List String
  includeDirs : List Path
  include_no_overwrite : List Path
  objects : List (Path × String)
  client_filename : String
  deriving DecidableEq, Repr

namespace Index

/-- The manifest-relative name of an absolute path, from the deletion loop
of `sync_modpack` (`index.rs` lines 113-125): a path under the modpack
directory is taken relative to it, otherwise the path is stripped of the
assets directory and prefixed with the `assets` component.  `none` models
the `unwrap` panic when the path is under neither directory. -/
def relFileName (modpackDir assetsDir : Path) (p : Path) : Option Path :=
  if modpackDir.isPrefixOf p then some (p.drop modpackDir.length)
  else if assetsDir.isPrefixOf p then some ("assets" :: p.drop assetsDir.length)
  else none

/-- The absolute path of a manifest key, from the download loop of
`sync_modpack` (`index.rs` lines 130-135): a key starting with `assets/`
is resolved under the assets directory, any other key under the modpack
directory.  The key consisting of the single component `assets` does not
start with `assets/` and falls in the second branch, as in the source. -/
def pathOfKey (modpackDir assetsDir : Path) (f : Path) : Path :=
  if f.head? = some "assets" ∧ f.tail ≠ [] then assetsDir ++ f.tail
  else modpackDir ++ f

/-- Files under `base.join(d)` for every `d` in `dirs`, modelling the
`include`/`include_no_overwrite` iterators of `sync_modpack`
(`index.rs` lines 85-98). -/
def filesUnderDirs (base : Path) (dirs : List Path) (fs : FS) : List Path :=
  (dirs.map (fun d => get_files_in_dir (base ++ d) fs)).flatten

/-- Modelled from the spec: `hash_files` (the repository's
`modpack/files.rs` is not part of the provided sources).  Per §4.1 the
Hash Verifier maps each requested path to its observed content digest and
records nothing for absent paths; `sync_modpack` treats a missing entry in
the returned map as "needs download". -/
def hash_files (hashFn : String → String) (paths : List Path) (fs : FS) :
    Path → Option String :=
  fun p => if p ∈ paths then (fsGet fs p).map hashFn else none

/-- Key lookup in the manifest's `objects` map, modelling
`HashMap::contains_key` on an association list. -/
def containsKey (objects : List (Path × String)) (f : Path) : Bool :=
  (objects.find? (fun kv => decide (kv.1 = f))).isSome

/-- The overwrite enumeration `abs_path_overwrite` of `sync_modpack`
(`index.rs` lines 93-106): the files under the `include` directories,
extended by the no-overwrite directories' files and the assets files when
`force_overwrite` is set.  The Rust value is a `HashSet`; the model fixes
insertion order and deduplicates, which determines the same set. -/
def overwriteSet (modpackDir assetsDir : Path) (index : ModpackIndex)
    (force_overwrite : Bool) (fs : FS) : List Path :=
  (filesUnderDirs modpackDir index.includeDirs fs ++
    if force_overwrite then
      filesUnderDirs modpackDir index.include_no_overwrite fs ++
        get_files_in_dir assetsDir fs
    else []).dedup

/-- The no-overwrite enumeration `abs_path_no_overwrite` of
`sync_modpack` (`index.rs` lines 99-106): empty when `force_overwrite`
is set, otherwise the no-overwrite directories' files together with the
assets files. -/
def noOverwriteSet (modpackDir assetsDir : Path) (index : ModpackIndex)
    (force_overwrite : Bool) (fs : FS) : List Path :=
  if force_overwrite then []
  else
    (filesUnderDirs modpackDir index.include_no_overwrite fs ++
      get_files_in_dir assetsDir fs).dedup

/-- Errors a sync run can end with.  `panicked` models the `unwrap` in the
relative-name computation; the other constructors model the `?` early
returns of `sync_modpack`. -/
inductive SyncErr
  | panicked
  | hashFailed
  | removeFailed (p : Path)
  | downloadFailed
  deriving DecidableEq, Repr

/-- Environment of one sync run: which I/O operations succeed and what
content a download produces at a destination path. -/
structure SyncOracles where
  hashOk : Bool
  removeOk : Path → Bool
  downloadOk : Bool
  remoteContent : Path → String
  writeOk : Bool

/-- The orphan-deletion loop of `sync_modpack` (`index.rs` lines
113-129): every enumerated path whose manifest-relative name is not a key
of `objects` is removed; a failing `fs::remove_file` aborts the loop with
its error.  Returns the loop's result, the disk afterwards, and the list
of paths that were removed. -/
def deleteOrphans (modpackDir assetsDir : Path) (objects : List (Path × String))
    (removeOk : Path → Bool) :
    List Path → FS → Except SyncErr Unit × FS × List Path
  | [], fs => (.ok (), fs, [])
  | p :: rest, fs =>
    match relFileName modpackDir assetsDir p with
    | none => (.error .panicked, fs, [])
    | some f =>
      if containsKey objects f then
        deleteOrphans modpackDir assetsDir objects removeOk rest fs
      else if removeOk p then
        let r := deleteOrphans modpackDir assetsDir objects removeOk rest (fsRemove fs p)
        (r.1, r.2.1, p :: r.2.2)
      else
        (.error (.removeFailed p), fs, [])

/-- Whether the deletion loop removes a path: its manifest-relative name
resolves and is not a key of `objects`. -/
def isOrphan (modpackDir assetsDir : Path) (objects : List (Path × String))
    (p : Path) : Bool :=
  match relFileName modpackDir assetsDir p with
  | some f => !containsKey objects f
  | none => false

/-- The download URL of a manifest key (`index.rs` lines 146-151):
`<server base>/<modpack name>/<relative file name>`. -/
def urlOfKey (serverBase modpackName : String) (f : Path) : String :=
  serverBase ++ "/" ++ modpackName ++ "/" ++ String.intercalate "/" f

/-- The `need_download` decision of `sync_modpack` (`index.rs` lines
140-144): a manifest entry needs downloading when the hash map holds no
digest for its path or the observed digest differs from the expected
one. -/
def need_download (observed : Option String) (remoteHash : String) : Bool :=
  match observed with
  | some h => decide (h ≠ remoteHash)
  | none => true

/-- The download-planning loop of `sync_modpack` (`index.rs` lines
130-154): for every manifest entry whose path is not in the no-overwrite
set, the entry is scheduled when the hash map has no digest for the path
or the digest differs from the expected one.  Returns the `(url, path)`
pairs in manifest order. -/
def planDownloads (serverBase modpackName : String) (modpackDir assetsDir : Path)
    (noOverwrite : List Path) (hashes : Path → Option String) :
    List (Path × String) → List (String × Path)
  | [] => []
  | (f, remoteHash) :: rest =>
    let path := pathOfKey modpackDir assetsDir f
    let tail := planDownloads serverBase modpackName modpackDir assetsDir
      noOverwrite hashes rest
    if path ∈ noOverwrite then tail
    else if need_download (hashes path) remoteHash then
      (urlOfKey serverBase modpackName f, path) :: tail
    else tail

/-- `save_local_index` (`index.rs` lines 65-72): the persisted index list
drops any entry with the synced modpack's name and appends the new index;
a failing serialization or write leaves the file as it was (both error
paths are silently ignored in the source). -/
def save_local_index (writeOk : Bool) (indexFile : List ModpackIndex)
    (index : ModpackIndex) : List ModpackIndex :=
  if writeOk then
    (indexFile.filter (fun x => decide (x.modpack_name ≠ index.modpack_name))) ++ [index]
  else indexFile

/-- Result of one `sync_modpack` run: outcome, final disk, final
persisted index list, the paths handed to the Hash Verifier, the paths
removed by the deletion loop, the scheduled `(url, path)` downloads, and
whether `save_local_index` was reached. -/
structure SyncOutcome where
  result : Except SyncErr Unit
  disk : FS
  indexFile : List ModpackIndex
  hashed : List Path
  deleted : List Path
  downloads : List (String × Path)
  committed : Bool
  deriving Repr

/-- `sync_modpack` (`index.rs` lines 74-161).  The enumerated sets are
Rust `HashSet`s; the model fixes insertion order and deduplicates, which
determines the same sets.  When `force_overwrite` is false the
no-overwrite directories' files and the assets files form the
no-overwrite set; otherwise they are added to the overwrite set.  The run
hashes the overwrite set, deletes orphans from it, schedules downloads
for mismatching manifest entries, and persists the index only after both
phases succeeded. -/
def sync_modpack (hashFn : String → String) (o : SyncOracles)
    (serverBase : String) (modpackDir assetsDir : Path)
    (index : ModpackIndex) (force_overwrite : Bool)
    (fs : FS) (indexFile : List ModpackIndex) : SyncOutcome :=
  let abs_path_overwrite := overwriteSet modpackDir assetsDir index force_overwrite fs
  let abs_path_no_overwrite := noOverwriteSet modpackDir assetsDir index force_overwrite fs
  if o.hashOk = false then
    { result := .error .hashFailed, disk := fs, indexFile := indexFile,
      hashed := abs_path_overwrite, deleted := [], downloads := [], committed := false }
  else
    let hashes := hash_files hashFn abs_path_overwrite fs
    let del := deleteOrphans modpackDir assetsDir index.objects o.removeOk
      abs_path_overwrite fs
    match del.1 with
    | .error e =>
      { result := .error e, disk := del.2.1, indexFile := indexFile,
        hashed := abs_path_overwrite, deleted := del.2.2, downloads := [],
        committed := false }
    | .ok _ =>
      let dls := planDownloads serverBase index.modpack_name modpackDir assetsDir
        abs_path_no_overwrite hashes index.objects
      if dls.isEmpty || o.downloadOk then
        { result := .ok (), disk :=
            dls.foldl (fun d up => fsWrite d up.2 (o.remoteContent up.2)) del.2.1,
          indexFile := save_local_index o.writeOk indexFile index,
          hashed := abs_path_overwrite, deleted := del.2.2, downloads := dls,
          committed := true }
      else
        { result := .error .downloadFailed, disk := del.2.1, indexFile := indexFile,
          hashed := abs_path_overwrite, deleted := del.2.2, downloads := dls,
          committed := false }

/-- `load_local_indexes` (`index.rs` lines 44-56) at the level of the
raw file: a missing file, a failing read, and unparsable JSON all yield
the empty list.  JSON parsing (`serde_json::from_str`) is external and
passed as a parameter. -/
inductive IndexFileState
  | missing
  | unreadable
  | content (data : String)

/-- `load_local_indexes` (`index.rs` lines 44-56). -/
def load_local_indexes (parse : String → Option (List ModpackIndex)) :
    IndexFileState → List ModpackIndex
  | .missing => []
  | .unreadable => []
  | .content d => (parse d).getD []

end Index

namespace AppSync

/-- `ModpackSyncStatus` (`modpack_sync_state.rs` lines 14-24). -/
inductive ModpackSyncStatus
  | notSynced
  | syncing (ignore_version force_overwrite : Bool)
  | synced
  | syncError (msg : String)
  | syncErrorOffline
  deriving DecidableEq, Repr

/-- An error produced by the sync future, carrying its display message
and its classification by `utils::is_connect_error` (the classifier
itself is external to the provided sources and kept abstract). -/
structure SyncFutureError where
  is_connect_error : Bool
  message : String
  deriving DecidableEq, Repr

/-- The status selection of the spawned sync task (`modpack_sync_state.rs`
lines 52-68): when the `tokio::select!` takes the cancellation branch the
result is `NotSynced`; otherwise a successful future yields `Synced` and
a failed one `SyncErrorOffline` for connection errors and
`SyncError(message)` for the rest.  `cancelled` states which `select!`
branch was taken. -/
def sync_task_status (cancelled : Bool) (res : Except SyncFutureError Unit) :
    ModpackSyncStatus :=
  if cancelled then .notSynced
  else
    match res with
    | .ok _ => .synced
    | .error e =>
      if e.is_connect_error then .syncErrorOffline else .syncError e.message

/-- Whether `render_ui` (`modpack_sync_state.rs` lines 217-230) presents
the status as an error message: exactly the two `SyncError` variants. -/
def status_is_error : ModpackSyncStatus → Bool
  | .syncError _ => true
  | .syncErrorOffline => true
  | _ => false

/-- A discriminant for the status constructors, to state that statuses
are pairwise distinguishable. -/
def statusTag : ModpackSyncStatus → Nat
  | .notSynced => 0
  | .syncing _ _ => 1
  | .synced => 2
  | .syncError _ => 3
  | .syncErrorOffline => 4

/-- `ModpackSyncState::ready_for_launch` (`modpack_sync_state.rs` lines
284-286): the modpack gate is open exactly in status `Synced`. -/
def ready_for_launch (s : ModpackSyncStatus) : Bool :=
  decide (s = ModpackSyncStatus.synced)

/-- `ModpackSyncState::is_up_to_date` (`modpack_sync_state.rs` lines
107-117): the selected modpack is up to date when a local index with the
same name exists and records the same version. -/
def is_up_to_date (local_indexes : List ModpackIndex) (selected : ModpackIndex) :
    Bool :=
  match local_indexes.find? (fun i => decide (i.modpack_name = selected.modpack_name)) with
  | some localIdx => decide (localIdx.modpack_version = selected.modpack_version)
  | none => false

/-- The launch gate of `LauncherApp::ui` (`app.rs` lines 117-128): the
launch UI is shown when authentication is ready, Java is ready, and the
modpack is synced or the remote index is offline. -/
def show_launch_ui (auth_ready java_ready modpack_ready index_online : Bool) :
    Bool :=
  auth_ready && (java_ready && (modpack_ready || !index_online))

end AppSync

namespace Download

/-- The progress-sink operations of §4.3/§6, as emitted events. -/
inductive ProgressEvent
  | set_length (n : Nat)
  | set_message (m : String)
  | inc (n : Nat)
  | finish
  deriving DecidableEq, Repr

/-- The total of all `inc` events of a trace. -/
def incTotal (evs : List ProgressEvent) : Nat :=
  (evs.filterMap (fun e => match e with | .inc n => some n | _ => none)).sum

/-- The streaming loop of `download_new_launcher` (`update.rs` lines
80-89): each successful chunk is appended to the in-memory buffer and
reported with `inc(chunk.len())`; a failing chunk propagates its error
(leaving no `finish` event); after the last chunk `finish` is emitted.
Chunk contents are byte lists. -/
def download_loop (acc : List Nat) (evs : List ProgressEvent) :
    List (Except String (List Nat)) → Except String (List Nat × List ProgressEvent)
  | [] => .ok (acc, evs ++ [.finish])
  | .error e :: _ => .error e
  | .ok ch :: rest => download_loop (acc ++ ch) (evs ++ [.inc ch.length]) rest

/-- `download_new_launcher` (`update.rs` lines 65-90): without a
configured update URL the call fails up front; a failing GET propagates;
otherwise the progress length is set to the response's content length
(`0` when unknown), the downloading message is set, and the stream is
consumed by `download_loop`. -/
def download_new_launcher (updateUrl : Option String)
    (response : Except String (Option Nat))
    (chunks : List (Except String (List Nat))) :
    Except String (List Nat × List ProgressEvent) :=
  match updateUrl with
  | none => .error "AutoUpdateUrlNotSet"
  | some _ =>
    match response with
    | .error e => .error e
    | .ok contentLength =>
      download_loop []
        [.set_length (contentLength.getD 0), .set_message "DownloadingUpdate"]
        chunks

/-- The streaming loop of `download_java` (`java.rs` lines 314-320):
identical in shape to the launcher loop, but chunks are written to the
destination file (modelled as the accumulated byte list) before the
`inc`. -/
def java_download_loop (file : List Nat) (evs : List ProgressEvent) :
    List (Except String (List Nat)) → Except String (List Nat × List ProgressEvent)
  | [] => .ok (file, evs ++ [.finish])
  | .error e :: _ => .error e
  | .ok ch :: rest => java_download_loop (file ++ ch) (evs ++ [.inc ch.length]) rest

/-- The download phase of `download_java` (`java.rs` lines 308-320): the
progress length is set to the response's content length (`0` when
unknown) and the stream is written to the archive file chunk by chunk. -/
def download_java_archive (response : Except String (Option Nat))
    (chunks : List (Except String (List Nat))) :
    Except String (List Nat × List ProgressEvent) :=
  match response with
  | .error e => .error e
  | .ok contentLength =>
    java_download_loop [] [.set_length (contentLength.getD 0)] chunks

end Download

namespace Utils

/-- Rust byte slicing `&s[..3]`, which panics when the string is shorter
than three bytes (`none` here).  Strings are treated as ASCII, so the
char count equals the byte count and every index is a char boundary. -/
def slice3 (s : String) : Option String :=
  if s.length < 3 then none else some (s.take 3)

/-- The argument preparation of `exec_custom_command_in_dir`
(`utils.rs` lines 10-28), up to handing `(program, args)` to
`tokio::process::Command`.  `none` models a panic: indexing
`modified_parts[0]` or `modified_parts[2]` out of bounds, or slicing
`[..3]` out of range.  The shell split (`shell_words::split`) is external;
its result is the `parts` input.  On Windows, when the first and third
words both start with `\?\`, those two words are stripped of that prefix
before the command is built. -/
def exec_custom_command_prepare (os : String) (parts : List String) :
    Option (String × List String) :=
  let winStep : Option (List String) :=
    if os = "windows" then
      match parts.head? with
      | none => none
      | some w0 =>
        match slice3 w0 with
        | none => none
        | some p0 =>
          if p0 = "\\?\\" then
            match parts.get? 2 with
            | none => none
            | some w2 =>
              match slice3 w2 with
              | none => none
              | some p2 =>
                if p2 = "\\?\\" then
                  some ((parts.set 0 (w0.drop 3)).set 2 (w2.drop 3))
                else some parts
          else some parts
    else some parts
  match winStep with
  | none => none
  | some mp =>
    match mp.head? with
    | none => none
    | some prog => some (prog, mp.drop 1)

end Utils

namespace Examples

/-- Builds a manifest with the fields the sync engine reads; the opaque
metadata fields are fixed. -/
def mkIndex (name version : String) (inc incNo : List Path)
    (objs : List (Path × String)) : ModpackIndex :=
  { modpack_name := name, java_version := "17", minecraft_version := "1.20.1",
    modpack_version := version, asset_index := "5", main_class := "Main",
    libraries := [], java_args := [], game_args := [],
    includeDirs := inc, include_no_overwrite := incNo, objects := objs,
    client_filename := "client.jar" }

/-- An environment in which every I/O operation succeeds and each
download writes the content `dl`. -/
def allOk : Index.SyncOracles :=
  { hashOk := true, removeOk := fun _ => true, downloadOk := true,
    remoteContent := fun _ => "dl", writeOk := true }

/-- An environment in which `fs::remove_file` always fails. -/
def removeFails : Index.SyncOracles :=
  { hashOk := true, removeOk := fun _ => false, downloadOk := true,
    remoteContent := fun _ => "dl", writeOk := true }

/-- A manifest whose `include` directory `a` contains the
`include_no_overwrite` directory `a/b`: the configuration on which the
protect rule loses against orphan deletion. -/
def overlapIndex : ModpackIndex := mkIndex "mp" "1" [["a"]] [["a", "b"]] []

/-- One user file inside the nested protected directory. -/
def overlapFS : FS := [(["mc", "a", "b", "f.txt"], "user data")]

/-- A manifest with one object `top.txt` that lies outside the single
`include` directory `a`. -/
def outsideIndex : ModpackIndex :=
  mkIndex "mp" "1" [["a"]] [] [(["top.txt"], "h")]

/-- The file `top.txt` present with exactly the expected digest
(the digest function of the examples is the identity). -/
def outsideFS : FS := [(["mc", "top.txt"], "h")]

/-- A manifest with disjoint `include` directory `a` and
`include_no_overwrite` directory `b`, and one object `b/h.txt` inside the
protected directory. -/
def protIndex : ModpackIndex :=
  mkIndex "mp" "1" [["a"]] [["b"]] [(["b", "h.txt"], "x")]

/-- One user file inside the protected directory `b`; the manifest entry
`b/h.txt` is absent from disk. -/
def protFS : FS := [(["mc", "b", "g.txt"], "user data")]

/-- The manifest of the spec's §8 scenario: objects `d/a.txt ↦ hi` and
`d/b.txt ↦ bye` under the include directory `d`. -/
def scenarioIndex : ModpackIndex :=
  mkIndex "mp" "1" [["d"]] []
    [(["d", "a.txt"], "hi"), (["d", "b.txt"], "bye")]

/-- The disk of the spec's §8 scenario: `a.txt` correct, `b.txt` absent,
orphan `c.txt` present. -/
def scenarioFS : FS :=
  [(["mc", "d", "a.txt"], "hi"), (["mc", "d", "c.txt"], "junk")]

end Examples

/-! ## Helper lemmas -/

namespace Index

theorem mem_get_files_in_dir {d : Path} {fs : FS} {p : Path} :
    p ∈ get_files_in_dir d fs ↔ ∃ c, (p, c) ∈ fs ∧ d.isPrefixOf p = true := by
  simp only [get_files_in_dir, List.mem_map, List.mem_filter]
  constructor
  · rintro ⟨⟨q, c⟩, ⟨hm, hp⟩, rfl⟩
    exact ⟨c, hm, hp⟩
  · rintro ⟨c, hm, hp⟩
    exact ⟨(p, c), ⟨hm, hp⟩, rfl⟩

theorem fsGet_isSome_of_mem_get_files_in_dir {d : Path} {fs : FS} {p : Path}
    (h : p ∈ get_files_in_dir d fs) : (fsGet fs p).isSome := by
  rcases mem_get_files_in_dir.mp h with ⟨c, hm, -⟩
  have hf : (fs.find? (fun kv => decide (kv.1 = p))).isSome :=
    List.find?_isSome.mpr ⟨(p, c), hm, by simp⟩
  rcases Option.isSome_iff_exists.mp hf with ⟨kv, hkv⟩
  unfold fsGet
  rw [hkv]
  rfl

theorem mem_filesUnderDirs {base : Path} {dirs : List Path} {fs : FS} {p : Path} :
    p ∈ filesUnderDirs base dirs fs ↔
      ∃ d ∈ dirs, p ∈ get_files_in_dir (base ++ d) fs := by
  simp [filesUnderDirs, List.mem_flatten]

theorem isPrefixOf_base_of_mem_filesUnderDirs {base : Path} {dirs : List Path}
    {fs : FS} {p : Path} (h : p ∈ filesUnderDirs base dirs fs) : base <+: p := by
  rcases mem_filesUnderDirs.mp h with ⟨d, -, hp⟩
  rcases mem_get_files_in_dir.mp hp with ⟨c, -, hpre⟩
  exact ( List.prefix_append base d).trans ( List.isPrefixOf_iff_prefix.mp hpre)

theorem mem_overwriteSet {modpackDir assetsDir : Path} {index : ModpackIndex}
    {force : Bool} {fs : FS} {p : Path} :
    p ∈ overwriteSet modpackDir assetsDir index force fs ↔
      p ∈ filesUnderDirs modpackDir index.includeDirs fs ∨
        (force = true ∧
          (p ∈ filesUnderDirs modpackDir index.include_no_overwrite fs ∨
            p ∈ get_files_in_dir assetsDir fs)) := by
  rw [overwriteSet, List.mem_dedup, List.mem_append]
  cases force <;> simp

theorem relFileName_isSome_of_mem_overwriteSet {modpackDir assetsDir : Path}
    {index : ModpackIndex} {force : Bool} {fs : FS} {p : Path}
    (h : p ∈ overwriteSet modpackDir assetsDir index force fs) :
    (relFileName modpackDir assetsDir p).isSome := by
  have hcase : modpackDir <+: p ∨ assetsDir <+: p := by
    rcases mem_overwriteSet.mp h with h | ⟨-, h | h⟩
    · exact Or.inl (isPrefixOf_base_of_mem_filesUnderDirs h)
    · exact Or.inl (isPrefixOf_base_of_mem_filesUnderDirs h)
    · rcases mem_get_files_in_dir.mp h with ⟨c, -, hpre⟩
      exact Or.inr ( List.isPrefixOf_iff_prefix.mp hpre)
  rw [relFileName]
  rcases hcase with hc | hc
  · rw [if_pos ( List.isPrefixOf_iff_prefix.mpr hc)]; rfl
  · by_cases hm : modpackDir.isPrefixOf p
    · rw [if_pos hm]; rfl
    · rw [if_neg hm, if_pos ( List.isPrefixOf_iff_prefix.mpr hc)]; rfl

theorem fsGet_isSome_of_mem_overwriteSet {modpackDir assetsDir : Path}
    {index : ModpackIndex} {force : Bool} {fs : FS} {p : Path}
    (h : p ∈ overwriteSet modpackDir assetsDir index force fs) :
    (fsGet fs p).isSome := by
  rcases mem_overwriteSet.mp h with h | ⟨-, h | h⟩
  · rcases mem_filesUnderDirs.mp h with ⟨d, -, hp⟩
    exact fsGet_isSome_of_mem_get_files_in_dir hp
  · rcases mem_filesUnderDirs.mp h with ⟨d, -, hp⟩
    exact fsGet_isSome_of_mem_get_files_in_dir hp
  · exact fsGet_isSome_of_mem_get_files_in_dir h

theorem deleteOrphans_mem_deleted {modpackDir assetsDir : Path}
    {objects : List (Path × String)} {removeOk : Path → Bool} :
    ∀ {l : List Path} {fs : FS} {p : Path},
      p ∈ (deleteOrphans modpackDir assetsDir objects removeOk l fs).2.2 →
        p ∈ l ∧ removeOk p = true := by
  intro l
  induction l with
  | nil => intro fs p h; simp [deleteOrphans] at h
  | cons q rest ih =>
    intro fs p h
    unfold deleteOrphans at h
    split at h
    · simp at h
    · split at h
      · rcases ih h with ⟨hm, hk⟩
        exact ⟨List.mem_cons_of_mem _ hm, hk⟩
      · split at h
        · rename_i hk
          simp only [List.mem_cons] at h
          rcases h with rfl | h
          · exact ⟨List.mem_cons_self _ _, hk⟩
          · rcases ih h with ⟨hm, hk2⟩
            exact ⟨List.mem_cons_of_mem _ hm, hk2⟩
        · simp at h

theorem deleteOrphans_ok_spec (modpackDir assetsDir : Path)
    (objects : List (Path × String)) (removeOk : Path → Bool) :
    ∀ (l : List Path) (fs : FS),
      (∀ q ∈ l, (relFileName modpackDir assetsDir q).isSome) →
      (∀ q ∈ l, removeOk q = true) →
      (deleteOrphans modpackDir assetsDir objects removeOk l fs).1 = .ok () ∧
        (deleteOrphans modpackDir assetsDir objects removeOk l fs).2.2 =
          l.filter (isOrphan modpackDir assetsDir objects) := by
  intro l
  induction l with
  | nil => intro fs _ _; simp [deleteOrphans]
  | cons q rest ih =>
    intro fs h1 h2
    rcases Option.isSome_iff_exists.mp (h1 q (List.mem_cons_self _ _)) with ⟨f, hf⟩
    have h1r : ∀ q ∈ rest, (relFileName modpackDir assetsDir q).isSome :=
      fun q hq => h1 q (List.mem_cons_of_mem _ hq)
    have h2r : ∀ q ∈ rest, removeOk q = true :=
      fun q hq => h2 q (List.mem_cons_of_mem _ hq)
    unfold deleteOrphans
    split
    · rename_i heq
      rw [hf] at heq
      cases heq
    · rename_i f2 heq
      rw [hf] at heq
      cases heq
      by_cases hc : containsKey objects f = true
      · rw [if_pos hc]
        have horph : isOrphan modpackDir assetsDir objects q = false := by
          simp [isOrphan, hf, hc]
        rw [List.filter_cons_of_neg (by simp [horph])]
        exact ih fs h1r h2r
      · rw [if_neg hc, if_pos (h2 q (List.mem_cons_self _ _))]
        have horph : isOrphan modpackDir assetsDir objects q = true := by
          simp only [isOrphan, hf]
          simp only [Bool.not_eq_true] at hc
          simp [hc]
        rw [List.filter_cons_of_pos (by simp [horph])]
        rcases ih (fsRemove fs q) h1r h2r with ⟨hres, hdel⟩
        refine ⟨hres, ?_⟩
        show q :: (deleteOrphans modpackDir assetsDir objects removeOk rest
          (fsRemove fs q)).2.2 = _
        rw [hdel]

theorem mem_planDownloads {serverBase modpackName : String}
    {modpackDir assetsDir : Path} {noOverwrite : List Path}
    {hashes : Path → Option String} :
    ∀ {objs : List (Path × String)} {q : String × Path},
      q ∈ planDownloads serverBase modpackName modpackDir assetsDir
            noOverwrite hashes objs ↔
        ∃ f rh, (f, rh) ∈ objs ∧
          q = (urlOfKey serverBase modpackName f, pathOfKey modpackDir assetsDir f) ∧
          pathOfKey modpackDir assetsDir f ∉ noOverwrite ∧
          need_download (hashes (pathOfKey modpackDir assetsDir f)) rh = true := by
  intro objs
  induction objs with
  | nil => intro q; simp [planDownloads]
  | cons e rest ih =>
    intro q
    rcases e with ⟨f, rh⟩
    unfold planDownloads
    by_cases hskip : pathOfKey modpackDir assetsDir f ∈ noOverwrite
    · rw [if_pos hskip]
      rw [ih]
      constructor
      · rintro ⟨g, gh, hm, hq, hno, hnd⟩
        exact ⟨g, gh, List.mem_cons_of_mem _ hm, hq, hno, hnd⟩
      · rintro ⟨g, gh, hm, hq, hno, hnd⟩
        rcases List.mem_cons.mp hm with heq | hm2
        · rw [Prod.mk.injEq] at heq
          obtain ⟨rfl, rfl⟩ := heq
          exact absurd hskip hno
        · exact ⟨g, gh, hm2, hq, hno, hnd⟩
    · rw [if_neg hskip]
      by_cases hnd : need_download (hashes (pathOfKey modpackDir assetsDir f)) rh = true
      · rw [if_pos hnd]
        constructor
        · intro hq
          rcases List.mem_cons.mp hq with rfl | hq2
          · exact ⟨f, rh, List.mem_cons_self _ _, rfl, hskip, hnd⟩
          · rcases ih.mp hq2 with ⟨g, gh, hm, hqe, hno, hnd2⟩
            exact ⟨g, gh, List.mem_cons_of_mem _ hm, hqe, hno, hnd2⟩
        · rintro ⟨g, gh, hm, hqe, hno, hnd2⟩
          rcases List.mem_cons.mp hm with heq | hm2
          · rw [Prod.mk.injEq] at heq
            obtain ⟨rfl, rfl⟩ := heq
            exact List.mem_cons.mpr (Or.inl hqe)
          · exact List.mem_cons.mpr (Or.inr (ih.mpr ⟨g, gh, hm2, hqe, hno, hnd2⟩))
      · rw [if_neg hnd]
        rw [ih]
        constructor
        · rintro ⟨g, gh, hm, hq, hno, hnd2⟩
          exact ⟨g, gh, List.mem_cons_of_mem _ hm, hq, hno, hnd2⟩
        · rintro ⟨g, gh, hm, hq, hno, hnd2⟩
          rcases List.mem_cons.mp hm with heq | hm2
          · rw [Prod.mk.injEq] at heq
            obtain ⟨rfl, rfl⟩ := heq
            exact absurd hnd2 hnd
          · exact ⟨g, gh, hm2, hq, hno, hnd2⟩

theorem pathOfKey_inj {modpackDir assetsDir : Path}
    (h1 : ¬ modpackDir <+: assetsDir) (h2 : ¬ assetsDir <+: modpackDir)
    {f g : Path} (h : pathOfKey modpackDir assetsDir f = pathOfKey modpackDir assetsDir g) :
    f = g := by
  unfold pathOfKey at h
  by_cases hf : f.head? = some "assets" ∧ f.tail ≠ [] <;>
    by_cases hg : g.head? = some "assets" ∧ g.tail ≠ [] <;>
      [rw [if_pos hf, if_pos hg] at h;
       rw [if_pos hf, if_neg hg] at h;
       rw [if_neg hf, if_pos hg] at h;
       rw [if_neg hf, if_neg hg] at h]
  · have htails : f.tail = g.tail := List.append_cancel_left h
    rcases f with _ | ⟨f0, ftl⟩
    · simp at hf
    · rcases g with _ | ⟨g0, gtl⟩
      · simp at hg
      · simp only [List.head?_cons, Option.some.injEq] at hf hg
        simp only [List.tail_cons] at htails
        rw [hf.1, hg.1, htails]
  · exfalso
    have hpm : modpackDir <+: (modpackDir ++ g) := List.prefix_append _ _
    have hpa : assetsDir <+: (modpackDir ++ g) := h ▸ List.prefix_append _ _
    rcases List.prefix_or_prefix_of_prefix hpm hpa with hc | hc
    · exact h1 hc
    · exact h2 hc
  · exfalso
    have hpm : modpackDir <+: (assetsDir ++ g.tail) := h ▸ List.prefix_append _ _
    have hpa : assetsDir <+: (assetsDir ++ g.tail) := List.prefix_append _ _
    rcases List.prefix_or_prefix_of_prefix hpm hpa with hc | hc
    · exact h1 hc
    · exact h2 hc
  · exact List.append_cancel_left h

theorem eq_val_of_mem_of_nodup_keys {l : List (Path × String)}
    (h : (l.map Prod.fst).Nodup) {a : Path} {b c : String}
    (h1 : (a, b) ∈ l) (h2 : (a, c) ∈ l) : b = c := by
  induction l with
  | nil => simp at h1
  | cons e rest ih =>
    simp only [List.map_cons, List.nodup_cons] at h
    rcases List.mem_cons.mp h1 with he1 | hm1 <;>
      rcases List.mem_cons.mp h2 with he2 | hm2
    · have he := he1.trans he2.symm
      rw [Prod.mk.injEq] at he
      exact he.2
    · exfalso
      apply h.1
      have ha : a ∈ rest.map Prod.fst := List.mem_map_of_mem Prod.fst hm2
      rw [← he1]
      exact ha
    · exfalso
      apply h.1
      have ha : a ∈ rest.map Prod.fst := List.mem_map_of_mem Prod.fst hm1
      rw [← he2]
      exact ha
    · exact ih h.2 hm1 hm2

theorem sync_modpack_hashed (hashFn : String → String) (o : SyncOracles)
    (serverBase : String) (modpackDir assetsDir : Path) (index : ModpackIndex)
    (force : Bool) (fs : FS) (indexFile : List ModpackIndex) :
    (sync_modpack hashFn o serverBase modpackDir assetsDir index force fs
        indexFile).hashed = overwriteSet modpackDir assetsDir index force fs := by
  unfold sync_modpack
  split
  · rfl
  · dsimp only
    split
    · rfl
    · split <;> rfl

theorem sync_modpack_deleted (hashFn : String → String) (o : SyncOracles)
    (serverBase : String) (modpackDir assetsDir : Path) (index : ModpackIndex)
    (force : Bool) (fs : FS) (indexFile : List ModpackIndex)
    (hhash : o.hashOk = true) :
    (sync_modpack hashFn o serverBase modpackDir assetsDir index force fs
        indexFile).deleted =
      (deleteOrphans modpackDir assetsDir index.objects o.removeOk
        (overwriteSet modpackDir assetsDir index force fs) fs).2.2 := by
  unfold sync_modpack
  rw [if_neg (by simp [hhash])]
  dsimp only
  split
  · rfl
  · split <;> rfl

theorem sync_modpack_downloads (hashFn : String → String) (o : SyncOracles)
    (serverBase : String) (modpackDir assetsDir : Path) (index : ModpackIndex)
    (force : Bool) (fs : FS) (indexFile : List ModpackIndex)
    (hhash : o.hashOk = true)
    (hdel : (deleteOrphans modpackDir assetsDir index.objects o.removeOk
      (overwriteSet modpackDir assetsDir index force fs) fs).1 = .ok ()) :
    (sync_modpack hashFn o serverBase modpackDir assetsDir index force fs
        indexFile).downloads =
      planDownloads serverBase index.modpack_name modpackDir assetsDir
        (noOverwriteSet modpackDir assetsDir index force fs)
        (hash_files hashFn (overwriteSet modpackDir assetsDir index force fs) fs)
        index.objects := by
  unfold sync_modpack
  rw [if_neg (by simp [hhash])]
  dsimp only
  split
  · rename_i e heq
    rw [hdel] at heq
    cases heq
  · split <;> rfl

theorem sync_modpack_hashFail (hashFn : String → String) (o : SyncOracles)
    (serverBase : String) (modpackDir assetsDir : Path) (index : ModpackIndex)
    (force : Bool) (fs : FS) (indexFile : List ModpackIndex)
    (h : o.hashOk = false) :
    (sync_modpack hashFn o serverBase modpackDir assetsDir index force fs
        indexFile).deleted = [] ∧
      (sync_modpack hashFn o serverBase modpackDir assetsDir index force fs
        indexFile).downloads = [] := by
  unfold sync_modpack
  rw [if_pos h]
  exact ⟨rfl, rfl⟩

theorem sync_modpack_deleted_sub (hashFn : String → String) (o : SyncOracles)
    (serverBase : String) (modpackDir assetsDir : Path) (index : ModpackIndex)
    (force : Bool) (fs : FS) (indexFile : List ModpackIndex) {p : Path}
    (h : p ∈ (sync_modpack hashFn o serverBase modpackDir assetsDir index force
      fs indexFile).deleted) :
    p ∈ overwriteSet modpackDir assetsDir index force fs := by
  by_cases hh : o.hashOk = true
  · rw [sync_modpack_deleted hashFn o serverBase modpackDir assetsDir index
      force fs indexFile hh] at h
    exact (deleteOrphans_mem_deleted h).1
  · rw [(sync_modpack_hashFail hashFn o serverBase modpackDir assetsDir index
      force fs indexFile (by simpa using hh)).1] at h
    simp at h

theorem sync_modpack_downloads_sub (hashFn : String → String) (o : SyncOracles)
    (serverBase : String) (modpackDir assetsDir : Path) (index : ModpackIndex)
    (force : Bool) (fs : FS) (indexFile : List ModpackIndex) {q : String × Path}
    (h : q ∈ (sync_modpack hashFn o serverBase modpackDir assetsDir index force
      fs indexFile).downloads) :
    q ∈ planDownloads serverBase index.modpack_name modpackDir assetsDir
      (noOverwriteSet modpackDir assetsDir index force fs)
      (hash_files hashFn (overwriteSet modpackDir assetsDir index force fs) fs)
      index.objects := by
  revert h
  unfold sync_modpack
  split
  · intro h; simp at h
  · dsimp only
    split
    · intro h; simp at h
    · split <;> exact fun h => h

end Index

/-! ## Claim theorems -/

/-- C6: every file enumerated by the overwrite (include) set whose
manifest-relative name is not a key of `objects` is removed during sync
(given that hashing and each removal succeed), and a file that lies only
under a no-overwrite directory (or the assets directory) with
`force_overwrite` false is not removed. -/
theorem C6_orphan_deletion (hashFn : String → String) (o : Index.SyncOracles)
    (serverBase : String) (modpackDir assetsDir : Path) (index : ModpackIndex)
    (force : Bool) (fs : FS) (indexFile : List ModpackIndex)
    (hhash : o.hashOk = true) (hrem : ∀ p, o.removeOk p = true) :
    (∀ p ∈ Index.overwriteSet modpackDir assetsDir index force fs,
      ∀ f, Index.relFileName modpackDir assetsDir p = some f →
        Index.containsKey index.objects f = false →
          p ∈ (Index.sync_modpack hashFn o serverBase modpackDir assetsDir
            index force fs indexFile).deleted) ∧
    (force = false →
      ∀ p ∈ Index.noOverwriteSet modpackDir assetsDir index force fs,
        p ∉ Index.overwriteSet modpackDir assetsDir index force fs →
          p ∉ (Index.sync_modpack hashFn o serverBase modpackDir assetsDir
            index force fs indexFile).deleted) := by
  have hspec := Index.deleteOrphans_ok_spec modpackDir assetsDir index.objects
    o.removeOk (Index.overwriteSet modpackDir assetsDir index force fs) fs
    (fun q hq => Index.relFileName_isSome_of_mem_overwriteSet hq)
    (fun q _ => hrem q)
  rw [Index.sync_modpack_deleted hashFn o serverBase modpackDir assetsDir index
    force fs indexFile hhash, hspec.2]
  constructor
  · intro p hp f hf hc
    refine List.mem_filter.mpr ⟨hp, ?_⟩
    simp [Index.isOrphan, hf, hc]
  · intro _ p _ hpo hmem
    exact hpo (List.mem_of_mem_filter hmem)

/-- Witness for C6 on the spec's §8 scenario: the orphan `c.txt` is
removed. -/
theorem C6_orphan_deletion_witness :
    ["mc", "d", "c.txt"] ∈ (Index.sync_modpack id Examples.allOk "srv" ["mc"]
      ["as"] Examples.scenarioIndex false Examples.scenarioFS []).deleted :=
  (C6_orphan_deletion id Examples.allOk "srv" ["mc"] ["as"]
      Examples.scenarioIndex false Examples.scenarioFS [] rfl (fun _ => rfl)).1
    ["mc", "d", "c.txt"] (by decide) ["d", "c.txt"] (by decide) (by decide)

/-- C1 fails as stated: with `force_overwrite = false` the file
`mc/a/b/f.txt` is in the no-overwrite (protect) set, yet the run hashes
it and deletes it, because the file is also enumerated by the plain
include directory `a`. -/
theorem C1_counterexample :
    (["mc", "a", "b", "f.txt"] ∈ Index.noOverwriteSet ["mc"] ["as"]
      Examples.overlapIndex false Examples.overlapFS) ∧
    (["mc", "a", "b", "f.txt"] ∈ (Index.sync_modpack id Examples.allOk "srv"
      ["mc"] ["as"] Examples.overlapIndex false Examples.overlapFS []).hashed) ∧
    (["mc", "a", "b", "f.txt"] ∈ (Index.sync_modpack id Examples.allOk "srv"
      ["mc"] ["as"] Examples.overlapIndex false Examples.overlapFS []).deleted) :=
  ⟨by decide, by decide, by decide⟩

/-- C1 (amended): with `force_overwrite = false`, a file of the
no-overwrite set that is not also enumerated by the overwrite (include)
set is skipped entirely — neither hashed, nor deleted, nor scheduled for
download.  With `force_overwrite = true` the no-overwrite set is empty,
every file under the no-overwrite directories is hashed like any other,
and a manifest entry absent from disk is scheduled for download. -/
theorem C1_protect_skip (hashFn : String → String) (o : Index.SyncOracles)
    (serverBase : String) (modpackDir assetsDir : Path) (index : ModpackIndex)
    (fs : FS) (indexFile : List ModpackIndex) :
    (∀ p ∈ Index.noOverwriteSet modpackDir assetsDir index false fs,
      p ∉ Index.overwriteSet modpackDir assetsDir index false fs →
        p ∉ (Index.sync_modpack hashFn o serverBase modpackDir assetsDir index
              false fs indexFile).hashed ∧
        p ∉ (Index.sync_modpack hashFn o serverBase modpackDir assetsDir index
              false fs indexFile).deleted ∧
        ∀ u, (u, p) ∉ (Index.sync_modpack hashFn o serverBase modpackDir
              assetsDir index false fs indexFile).downloads) ∧
    (Index.noOverwriteSet modpackDir assetsDir index true fs = [] ∧
      (∀ p ∈ Index.filesUnderDirs modpackDir index.include_no_overwrite fs,
        p ∈ (Index.sync_modpack hashFn o serverBase modpackDir assetsDir index
              true fs indexFile).hashed) ∧
      (o.hashOk = true → (∀ q, o.removeOk q = true) →
        ∀ f rh, (f, rh) ∈ index.objects →
          fsGet fs (Index.pathOfKey modpackDir assetsDir f) = none →
            (Index.urlOfKey serverBase index.modpack_name f,
                Index.pathOfKey modpackDir assetsDir f) ∈
              (Index.sync_modpack hashFn o serverBase modpackDir assetsDir
                index true fs indexFile).downloads)) := by
  constructor
  · intro p hno hnow
    refine ⟨?_, ?_, ?_⟩
    · rw [Index.sync_modpack_hashed]
      exact hnow
    · intro hdel
      exact hnow (Index.sync_modpack_deleted_sub hashFn o serverBase modpackDir
        assetsDir index false fs indexFile hdel)
    · intro u hmem
      have h2 := Index.sync_modpack_downloads_sub hashFn o serverBase modpackDir
        assetsDir index false fs indexFile hmem
      rcases Index.mem_planDownloads.mp h2 with ⟨g, gh, -, hq, hnoq, -⟩
      have hp : p = Index.pathOfKey modpackDir assetsDir g := congrArg Prod.snd hq
      rw [← hp] at hnoq
      exact hnoq hno
  · refine ⟨rfl, ?_, ?_⟩
    · intro p hp
      rw [Index.sync_modpack_hashed]
      exact Index.mem_overwriteSet.mpr (Or.inr ⟨rfl, Or.inl hp⟩)
    · intro hhash hrem f rh hm habs
      have hspec := Index.deleteOrphans_ok_spec modpackDir assetsDir
        index.objects o.removeOk
        (Index.overwriteSet modpackDir assetsDir index true fs) fs
        (fun q hq => Index.relFileName_isSome_of_mem_overwriteSet hq)
        (fun q _ => hrem q)
      rw [Index.sync_modpack_downloads hashFn o serverBase modpackDir assetsDir
        index true fs indexFile hhash hspec.1]
      apply Index.mem_planDownloads.mpr
      refine ⟨f, rh, hm, rfl, by simp [Index.noOverwriteSet], ?_⟩
      have hnone : Index.hash_files hashFn
          (Index.overwriteSet modpackDir assetsDir index true fs) fs
          (Index.pathOfKey modpackDir assetsDir f) = none := by
        unfold Index.hash_files
        split
        · rw [habs]
          rfl
        · rfl
      rw [hnone]
      rfl

/-- Witness for C1 (amended): in the disjoint-directories configuration
the protected user file `mc/b/g.txt` is untouched with
`force_overwrite = false`, and with `force_overwrite = true` the absent
protected manifest entry `b/h.txt` is scheduled for download. -/
theorem C1_protect_skip_witness :
    (["mc", "b", "g.txt"] ∉ (Index.sync_modpack id Examples.allOk "srv" ["mc"]
        ["as"] Examples.protIndex false Examples.protFS []).hashed ∧
      ["mc", "b", "g.txt"] ∉ (Index.sync_modpack id Examples.allOk "srv" ["mc"]
        ["as"] Examples.protIndex false Examples.protFS []).deleted ∧
      ("u", ["mc", "b", "g.txt"]) ∉ (Index.sync_modpack id Examples.allOk "srv"
        ["mc"] ["as"] Examples.protIndex false Examples.protFS []).downloads) ∧
    (Index.urlOfKey "srv" "mp" ["b", "h.txt"],
        Index.pathOfKey ["mc"] ["as"] ["b", "h.txt"]) ∈
      (Index.sync_modpack id Examples.allOk "srv" ["mc"] ["as"]
        Examples.protIndex true Examples.protFS []).downloads := by
  have h := C1_protect_skip id Examples.allOk "srv" ["mc"] ["as"]
    Examples.protIndex Examples.protFS []
  refine ⟨?_, ?_⟩
  · have h1 := h.1 ["mc", "b", "g.txt"] (by decide) (by decide)
    exact ⟨h1.1, h1.2.1, h1.2.2 "u"⟩
  · exact h.2.2.2 rfl (fun _ => rfl) ["b", "h.txt"] "x" (by decide) (by decide)

/-- C3 fails as stated: `mc/a/b/f.txt` is an orphan of the include set
`a` and protected by the no-overwrite entry `a/b` with
`force_overwrite = false`, yet `sync_modpack` deletes it — the deletion
loop never consults the no-overwrite set. -/
theorem C3_counterexample :
    Index.isOrphan ["mc"] ["as"] Examples.overlapIndex.objects
        ["mc", "a", "b", "f.txt"] = true ∧
    (["mc", "a", "b", "f.txt"] ∈ Index.noOverwriteSet ["mc"] ["as"]
      Examples.overlapIndex false Examples.overlapFS) ∧
    (["mc", "a", "b", "f.txt"] ∈ (Index.sync_modpack id Examples.allOk "srv"
      ["mc"] ["as"] Examples.overlapIndex false Examples.overlapFS []).deleted) :=
  ⟨by decide, by decide, by decide⟩

/-- C3 (amended): protection takes precedence over orphan deletion
exactly for paths that the overwrite (include) enumeration does not
reach: a protected path that is not in the overwrite set is never
deleted. -/
theorem C3_protect_precedence (hashFn : String → String) (o : Index.SyncOracles)
    (serverBase : String) (modpackDir assetsDir : Path) (index : ModpackIndex)
    (fs : FS) (indexFile : List ModpackIndex) :
    ∀ p ∈ Index.noOverwriteSet modpackDir assetsDir index false fs,
      p ∉ Index.overwriteSet modpackDir assetsDir index false fs →
        p ∉ (Index.sync_modpack hashFn o serverBase modpackDir assetsDir index
              false fs indexFile).deleted := by
  intro p _ hnow hdel
  exact hnow (Index.sync_modpack_deleted_sub hashFn o serverBase modpackDir
    assetsDir index false fs indexFile hdel)

/-- Witness for C3 (amended): the protected orphan `mc/b/g.txt` of the
disjoint-directories configuration is not deleted. -/
theorem C3_protect_precedence_witness :
    ["mc", "b", "g.txt"] ∉ (Index.sync_modpack id Examples.allOk "srv" ["mc"]
      ["as"] Examples.protIndex false Examples.protFS []).deleted :=
  C3_protect_precedence id Examples.allOk "srv" ["mc"] ["as"]
    Examples.protIndex Examples.protFS [] ["mc", "b", "g.txt"] (by decide)
    (by decide)

/-- C2 fails as stated: the manifest entry `top.txt` is present on disk
with exactly the expected digest (the digest function is the identity and
the content equals the expected digest `h`), it is not protected, and
still it is scheduled for download, because its path lies outside every
include directory and is therefore never handed to the Hash Verifier. -/
theorem C2_counterexample :
    ((["top.txt"], "h") ∈ Examples.outsideIndex.objects) ∧
    fsGet Examples.outsideFS ["mc", "top.txt"] = some "h" ∧
    id "h" = "h" ∧
    Index.noOverwriteSet ["mc"] ["as"] Examples.outsideIndex false
      Examples.outsideFS = [] ∧
    (Index.urlOfKey "srv" "mp" ["top.txt"], ["mc", "top.txt"]) ∈
      (Index.sync_modpack id Examples.allOk "srv" ["mc"] ["as"]
        Examples.outsideIndex false Examples.outsideFS []).downloads :=
  ⟨by decide, by decide, rfl, by decide, by decide⟩

/-- C2 (amended): a non-protected manifest entry is scheduled for
download exactly when `need_download` holds of the Hash Verifier's map:
when the entry's path is not an enumerated on-disk file (in particular
when it is absent) or its observed digest differs from the expected one.
For an enumerated on-disk file the entry is scheduled exactly when the
content digest differs from the expected digest. -/
theorem C2_need_download (hashFn : String → String) (o : Index.SyncOracles)
    (serverBase : String) (modpackDir assetsDir : Path) (index : ModpackIndex)
    (force : Bool) (fs : FS) (indexFile : List ModpackIndex)
    (hhash : o.hashOk = true) (hrem : ∀ q, o.removeOk q = true)
    (hnd : (index.objects.map Prod.fst).Nodup)
    (h1 : ¬ modpackDir <+: assetsDir) (h2 : ¬ assetsDir <+: modpackDir) :
    ∀ f rh, (f, rh) ∈ index.objects →
      Index.pathOfKey modpackDir assetsDir f ∉
          Index.noOverwriteSet modpackDir assetsDir index force fs →
        ((Index.urlOfKey serverBase index.modpack_name f,
            Index.pathOfKey modpackDir assetsDir f) ∈
            (Index.sync_modpack hashFn o serverBase modpackDir assetsDir index
              force fs indexFile).downloads ↔
          Index.need_download
            (Index.hash_files hashFn
              (Index.overwriteSet modpackDir assetsDir index force fs) fs
              (Index.pathOfKey modpackDir assetsDir f)) rh = true) ∧
        (∀ c, Index.pathOfKey modpackDir assetsDir f ∈
              Index.overwriteSet modpackDir assetsDir index force fs →
            fsGet fs (Index.pathOfKey modpackDir assetsDir f) = some c →
            ((Index.urlOfKey serverBase index.modpack_name f,
                Index.pathOfKey modpackDir assetsDir f) ∈
                (Index.sync_modpack hashFn o serverBase modpackDir assetsDir
                  index force fs indexFile).downloads ↔
              hashFn c ≠ rh)) := by
  intro f rh hm hskip
  have hspec := Index.deleteOrphans_ok_spec modpackDir assetsDir index.objects
    o.removeOk (Index.overwriteSet modpackDir assetsDir index force fs) fs
    (fun q hq => Index.relFileName_isSome_of_mem_overwriteSet hq)
    (fun q _ => hrem q)
  have hdls := Index.sync_modpack_downloads hashFn o serverBase modpackDir
    assetsDir index force fs indexFile hhash hspec.1
  have hiff : (Index.urlOfKey serverBase index.modpack_name f,
      Index.pathOfKey modpackDir assetsDir f) ∈
      (Index.sync_modpack hashFn o serverBase modpackDir assetsDir index
        force fs indexFile).downloads ↔
      Index.need_download
        (Index.hash_files hashFn
          (Index.overwriteSet modpackDir assetsDir index force fs) fs
          (Index.pathOfKey modpackDir assetsDir f)) rh = true := by
    rw [hdls]
    constructor
    · intro hmem
      rcases Index.mem_planDownloads.mp hmem with ⟨g, gh, hmg, hq, -, hndg⟩
      have hpeq : Index.pathOfKey modpackDir assetsDir f =
          Index.pathOfKey modpackDir assetsDir g := congrArg Prod.snd hq
      have hfg : f = g := Index.pathOfKey_inj h1 h2 hpeq
      subst hfg
      have hrg : rh = gh := Index.eq_val_of_mem_of_nodup_keys hnd hm hmg
      subst hrg
      exact hndg
    · intro hneed
      exact Index.mem_planDownloads.mpr ⟨f, rh, hm, rfl, hskip, hneed⟩
  refine ⟨hiff, ?_⟩
  intro c hmem hget
  have heq : Index.hash_files hashFn
      (Index.overwriteSet modpackDir assetsDir index force fs) fs
      (Index.pathOfKey modpackDir assetsDir f) = some (hashFn c) := by
    unfold Index.hash_files
    rw [if_pos hmem, hget]
    rfl
  refine hiff.trans ?_
  rw [heq]
  simp [Index.need_download]

/-- Witness for C2 (amended) on the spec's §8 scenario: the absent
manifest entry `d/b.txt` is scheduled for download. -/
theorem C2_need_download_witness :
    (Index.urlOfKey "srv" "mp" ["d", "b.txt"],
        Index.pathOfKey ["mc"] ["as"] ["d", "b.txt"]) ∈
      (Index.sync_modpack id Examples.allOk "srv" ["mc"] ["as"]
        Examples.scenarioIndex false Examples.scenarioFS []).downloads :=
  ((C2_need_download id Examples.allOk "srv" ["mc"] ["as"]
      Examples.scenarioIndex false Examples.scenarioFS [] rfl (fun _ => rfl)
      (by decide) (by decide) (by decide)) ["d", "b.txt"] "bye" (by decide)
      (by decide)).1.mpr (by decide)

/-- C4: `save_local_index` is reached only when every orphan deletion and
the whole download phase succeeded; on any error the run returns that
error with the persisted index list unchanged, and on success the
persisted index list is exactly the `save_local_index` update. -/
theorem C4_commit_after_success (hashFn : String → String)
    (o : Index.SyncOracles) (serverBase : String) (modpackDir assetsDir : Path)
    (index : ModpackIndex) (force : Bool) (fs : FS)
    (indexFile : List ModpackIndex) :
    (∀ e, (Index.sync_modpack hashFn o serverBase modpackDir assetsDir index
        force fs indexFile).result = .error e →
      (Index.sync_modpack hashFn o serverBase modpackDir assetsDir index force
        fs indexFile).committed = false ∧
      (Index.sync_modpack hashFn o serverBase modpackDir assetsDir index force
        fs indexFile).indexFile = indexFile) ∧
    ((Index.sync_modpack hashFn o serverBase modpackDir assetsDir index force
        fs indexFile).committed = true →
      (Index.sync_modpack hashFn o serverBase modpackDir assetsDir index force
        fs indexFile).result = .ok () ∧
      (∀ p ∈ (Index.sync_modpack hashFn o serverBase modpackDir assetsDir index
        force fs indexFile).deleted, o.removeOk p = true) ∧
      ((Index.sync_modpack hashFn o serverBase modpackDir assetsDir index force
        fs indexFile).downloads ≠ [] → o.downloadOk = true)) ∧
    ((Index.sync_modpack hashFn o serverBase modpackDir assetsDir index force
        fs indexFile).result = .ok () →
      (Index.sync_modpack hashFn o serverBase modpackDir assetsDir index force
        fs indexFile).indexFile =
        Index.save_local_index o.writeOk indexFile index) := by
  unfold Index.sync_modpack
  split
  · exact ⟨fun e _ => ⟨rfl, rfl⟩, fun hc => absurd hc (by simp),
      fun hok => Except.noConfusion hok⟩
  · dsimp only
    split
    · exact ⟨fun e _ => ⟨rfl, rfl⟩, fun hc => absurd hc (by simp),
        fun hok => Except.noConfusion hok⟩
    · split
      · rename_i hif
        refine ⟨fun e he => Except.noConfusion he, fun _ => ⟨rfl, ?_, ?_⟩,
          fun _ => rfl⟩
        · intro p hp
          exact (Index.deleteOrphans_mem_deleted hp).2
        · intro hne
          rcases Bool.or_eq_true_iff.mp hif with h | h
          · exact absurd (List.isEmpty_iff.mp h) hne
          · exact h
      · exact ⟨fun e _ => ⟨rfl, rfl⟩, fun hc => absurd hc (by simp),
          fun hok => Except.noConfusion hok⟩

/-- Witness for C4: when every removal fails, the run errors with
`removeFailed` and the persisted index list stays empty. -/
theorem C4_commit_after_success_witness :
    (Index.sync_modpack id Examples.removeFails "srv" ["mc"] ["as"]
      Examples.overlapIndex false Examples.overlapFS []).committed = false ∧
    (Index.sync_modpack id Examples.removeFails "srv" ["mc"] ["as"]
      Examples.overlapIndex false Examples.overlapFS []).indexFile = [] :=
  (C4_commit_after_success id Examples.removeFails "srv" ["mc"] ["as"]
      Examples.overlapIndex false Examples.overlapFS []).1
    (.removeFailed ["mc", "a", "b", "f.txt"]) (by rfl)

/-- C5: when the select takes the cancellation branch the task reports
`NotSynced` — the spec's "not synced / cancelled" status — whose
constructor tag differs from those of `Synced`, `SyncError`, and
`SyncErrorOffline`; it is not rendered as an error; and every task result
is one of the four delivered statuses (never `Syncing`). -/
theorem C5_cancellation_status :
    (∀ res : Except AppSync.SyncFutureError Unit,
      AppSync.sync_task_status true res = AppSync.ModpackSyncStatus.notSynced ∧
      AppSync.status_is_error (AppSync.sync_task_status true res) = false) ∧
    (AppSync.statusTag AppSync.ModpackSyncStatus.notSynced = 0 ∧
      AppSync.statusTag AppSync.ModpackSyncStatus.synced = 2 ∧
      (∀ m, AppSync.statusTag (AppSync.ModpackSyncStatus.syncError m) = 3) ∧
      AppSync.statusTag AppSync.ModpackSyncStatus.syncErrorOffline = 4) ∧
    (∀ (c : Bool) (res : Except AppSync.SyncFutureError Unit),
      AppSync.sync_task_status c res = AppSync.ModpackSyncStatus.synced ∨
      AppSync.sync_task_status c res = AppSync.ModpackSyncStatus.notSynced ∨
      (∃ m, AppSync.sync_task_status c res =
        AppSync.ModpackSyncStatus.syncError m) ∨
      AppSync.sync_task_status c res =
        AppSync.ModpackSyncStatus.syncErrorOffline) := by
  refine ⟨fun res => ⟨rfl, rfl⟩, ⟨rfl, rfl, fun m => rfl, rfl⟩, ?_⟩
  intro c res
  cases c
  · cases res with
    | ok a => exact Or.inl rfl
    | error e =>
      cases he : e.is_connect_error
      · refine Or.inr (Or.inr (Or.inl ⟨e.message, ?_⟩))
        simp [AppSync.sync_task_status, he]
      · refine Or.inr (Or.inr (Or.inr ?_))
        simp [AppSync.sync_task_status, he]
  · exact Or.inr (Or.inl rfl)

/-- C7: for every error from the sync future the status is
`SyncErrorOffline` exactly when the classifier marks it a connection
error, and otherwise `SyncError` carrying the error's message; and with
the index offline a synced modpack passes the launch gate, which then
depends only on authorization and Java readiness. -/
theorem C7_offline_classification :
    (∀ e : AppSync.SyncFutureError,
      (AppSync.sync_task_status false (.error e) =
          AppSync.ModpackSyncStatus.syncErrorOffline ↔
        e.is_connect_error = true) ∧
      (e.is_connect_error = false →
        AppSync.sync_task_status false (.error e) =
          AppSync.ModpackSyncStatus.syncError e.message)) ∧
    (∀ auth java : Bool,
      AppSync.show_launch_ui auth java
        (AppSync.ready_for_launch AppSync.ModpackSyncStatus.synced) false =
        (auth && java)) := by
  constructor
  · intro e
    constructor
    · constructor
      · intro h
        cases hc : e.is_connect_error
        · simp [AppSync.sync_task_status, hc] at h
        · rfl
      · intro hc
        simp [AppSync.sync_task_status, hc]
    · intro hc
      simp [AppSync.sync_task_status, hc]
  · intro auth java
    simp [AppSync.show_launch_ui, AppSync.ready_for_launch]

/-- Witness for C7: a connection error maps to `SyncErrorOffline`, a
non-connection error to `SyncError` with its message, and the gate opens
offline with a synced modpack. -/
theorem C7_offline_classification_witness :
    AppSync.sync_task_status false (.error ⟨true, "net"⟩) =
        AppSync.ModpackSyncStatus.syncErrorOffline ∧
    AppSync.sync_task_status false (.error ⟨false, "boom"⟩) =
        AppSync.ModpackSyncStatus.syncError "boom" ∧
    AppSync.show_launch_ui true true
      (AppSync.ready_for_launch AppSync.ModpackSyncStatus.synced) false =
      true :=
  ⟨(C7_offline_classification.1 ⟨true, "net"⟩).1.mpr rfl,
    (C7_offline_classification.1 ⟨false, "boom"⟩).2 rfl,
    C7_offline_classification.2 true true⟩

theorem download_loop_ok (oks : List (List Nat)) :
    ∀ (acc : List Nat) (evs : List Download.ProgressEvent),
      Download.download_loop acc evs (oks.map Except.ok) =
        .ok (acc ++ oks.flatten,
          evs ++ (oks.map (fun c => Download.ProgressEvent.inc c.length) ++
            [Download.ProgressEvent.finish])) := by
  induction oks with
  | nil => intro acc evs; simp [Download.download_loop]
  | cons c rest ih =>
    intro acc evs
    simp only [List.map_cons, Download.download_loop]
    rw [ih]
    simp

theorem java_download_loop_ok (oks : List (List Nat)) :
    ∀ (file : List Nat) (evs : List Download.ProgressEvent),
      Download.java_download_loop file evs (oks.map Except.ok) =
        .ok (file ++ oks.flatten,
          evs ++ (oks.map (fun c => Download.ProgressEvent.inc c.length) ++
            [Download.ProgressEvent.finish])) := by
  induction oks with
  | nil => intro file evs; simp [Download.java_download_loop]
  | cons c rest ih =>
    intro file evs
    simp only [List.map_cons, Download.java_download_loop]
    rw [ih]
    simp

theorem incTotal_inc_append (oks : List (List Nat)) :
    Download.incTotal ((oks.map fun c => Download.ProgressEvent.inc c.length) ++
      [Download.ProgressEvent.finish]) = (oks.map List.length).sum := by
  induction oks with
  | nil => rfl
  | cons c rest ih =>
    simp only [List.map_cons, List.cons_append, List.sum_cons]
    rw [← ih]
    rfl

/-- C8: on a successful run both download loops set the progress length
to the content length (`0` when unknown), emit exactly one `inc` per
received chunk carrying that chunk's byte count, end with `finish`, and
the bytes accumulated (the returned buffer of the launcher update, resp.
the bytes written to the Java archive file) equal the sum of all `inc`
amounts of the trace. -/
theorem C8_progress_contract (u : String) (cl : Option Nat)
    (oks : List (List Nat)) :
    (Download.download_new_launcher (some u) (.ok cl) (oks.map Except.ok) =
      .ok (oks.flatten,
        Download.ProgressEvent.set_length (cl.getD 0) ::
          Download.ProgressEvent.set_message "DownloadingUpdate" ::
            (oks.map (fun c => Download.ProgressEvent.inc c.length) ++
              [Download.ProgressEvent.finish]))) ∧
    (Download.download_java_archive (.ok cl) (oks.map Except.ok) =
      .ok (oks.flatten,
        Download.ProgressEvent.set_length (cl.getD 0) ::
          (oks.map (fun c => Download.ProgressEvent.inc c.length) ++
            [Download.ProgressEvent.finish]))) ∧
    oks.flatten.length =
      Download.incTotal
        (Download.ProgressEvent.set_length (cl.getD 0) ::
          Download.ProgressEvent.set_message "DownloadingUpdate" ::
            (oks.map (fun c => Download.ProgressEvent.inc c.length) ++
              [Download.ProgressEvent.finish])) := by
  refine ⟨?_, ?_, ?_⟩
  · unfold Download.download_new_launcher
    dsimp only
    rw [download_loop_ok]
    simp
  · unfold Download.download_java_archive
    dsimp only
    rw [java_download_loop_ok]
    simp
  · rw [List.length_flatten]
    have h1 : Download.incTotal
        (Download.ProgressEvent.set_length (cl.getD 0) ::
          Download.ProgressEvent.set_message "DownloadingUpdate" ::
            (oks.map (fun c => Download.ProgressEvent.inc c.length) ++
              [Download.ProgressEvent.finish])) =
        Download.incTotal
          (oks.map (fun c => Download.ProgressEvent.inc c.length) ++
            [Download.ProgressEvent.finish]) := rfl
    rw [h1, incTotal_inc_append]

/-- C9: a missing, unreadable, or unparsable local index file loads as
the empty list — never an error — and with no local indexes
`is_up_to_date` is false for every selected modpack, exactly as after no
prior successful sync. -/
theorem C9_corrupt_index (parse : String → Option (List ModpackIndex))
    (d : String) (selected : ModpackIndex) :
    Index.load_local_indexes parse .missing = [] ∧
    Index.load_local_indexes parse .unreadable = [] ∧
    (parse d = none → Index.load_local_indexes parse (.content d) = []) ∧
    AppSync.is_up_to_date [] selected = false := by
  refine ⟨rfl, rfl, ?_, rfl⟩
  intro h
  simp [Index.load_local_indexes, h]

/-- Witness for C9: unparsable content loads as the empty list, under
which the example modpack is reported out of date. -/
theorem C9_corrupt_index_witness :
    Index.load_local_indexes (fun _ => none) (.content "garbage") = [] ∧
    AppSync.is_up_to_date [] Examples.scenarioIndex = false :=
  ⟨(C9_corrupt_index (fun _ => none) "garbage" Examples.scenarioIndex).2.2.1 rfl,
    (C9_corrupt_index (fun _ => none) "garbage" Examples.scenarioIndex).2.2.2⟩

/-- C10: the command preparation of `exec_custom_command_in_dir` panics
(no command is produced) on a shell split with zero words on any OS, and
on Windows when the first word is shorter than three bytes, or when the
first word starts with `\?\` but there is no third word; a well-formed
command is prepared normally. -/
theorem C10_command_panics :
    Utils.exec_custom_command_prepare "linux" [] = none ∧
    Utils.exec_custom_command_prepare "windows" [] = none ∧
    Utils.exec_custom_command_prepare "windows" ["ab"] = none ∧
    Utils.exec_custom_command_prepare "windows" ["\\?\\x", "y"] = none ∧
    Utils.exec_custom_command_prepare "linux" ["echo", "hi"] =
      some ("echo", ["hi"]) :=
  ⟨by decide, by decide, by decide, by decide, by decide⟩

end PotatoLauncher
